import Mathlib

/-!
Verification of the `agent` repository (an interactive command-line LLM agent
written in Go) against its natural-language specification.

The Go source is shallowly embedded: pure functions become Lean functions,
the mutable `AgentConfig` / `LiveContext` state becomes explicit state
passing, the filesystem becomes an explicit parameter, `encoding/json`
(a Go standard-library dependency) is abstracted as parse/marshal function
parameters, and fallible Go functions return `Except`/`Option`.
-/

set_option maxRecDepth 10000

namespace Agent

/-- FunctionCall mirrors `models.FunctionCall` (name plus raw argument string). -/
structure FunctionCall where
  name : String
  arguments : String
  deriving DecidableEq, Repr

/-- ToolCall mirrors `models.ToolCall` (backend-assigned id, type tag, function). -/
structure ToolCall where
  id : String
  type : String
  function : FunctionCall
  deriving DecidableEq, Repr

/-- Jv models a decoded JSON value (the result of Go's `json.Unmarshal` into
`interface{}`); only the structure relevant to parameter merging is kept. -/
inductive Jv where
  | null : Jv
  | bool (b : Bool) : Jv
  | num (n : Int) : Jv
  | str (s : String) : Jv
  | arr (elems : List Jv) : Jv
  | obj (fields : List (String × Jv)) : Jv

/-- JParse is the type of an abstract `json.Unmarshal` into
`map[string]interface{}`: it either decodes an argument string into an
association list of fields or fails. -/
def JParse : Type := String → Option (List (String × Jv))

/-- JMarshal is the type of an abstract `json.Marshal` of a field map. -/
def JMarshal : Type := List (String × Jv) → Option String

/-- CollectedParams holds the four per-key accumulation slices built by
`mergeUpdateContextCalls` (`addFiles`, `removeFiles`, `addDirs`, `removeDirs`). -/
structure CollectedParams where
  addFiles : List Jv
  removeFiles : List Jv
  addDirs : List Jv
  removeDirs : List Jv

/-- emptyParams is the initial (all-nil) state of the four slices. -/
def emptyParams : CollectedParams := ⟨[], [], [], []⟩

/-- collectOne mirrors the body of the argument-collection loop of
`mergeUpdateContextCalls` for one successfully parsed argument map: each of
the four keys that is present appends its value to the matching slice. -/
def collectOne (acc : CollectedParams) (args : List (String × Jv)) : CollectedParams :=
  let a1 := match args.lookup "add_file" with
    | some v => { acc with addFiles := acc.addFiles ++ [v] }
    | none => acc
  let a2 := match args.lookup "remove_file" with
    | some v => { a1 with removeFiles := a1.removeFiles ++ [v] }
    | none => a1
  let a3 := match args.lookup "add_directory" with
    | some v => { a2 with addDirs := a2.addDirs ++ [v] }
    | none => a2
  match args.lookup "remove_directory" with
    | some v => { a3 with removeDirs := a3.removeDirs ++ [v] }
    | none => a3

/-- collectParams folds the collection loop of `mergeUpdateContextCalls` over
the call list: a call whose argument string fails to parse is skipped
(`continue` in the Go source). -/
def collectParams (parse : JParse) : List ToolCall → CollectedParams → CollectedParams
  | [], acc => acc
  | call :: rest, acc =>
    match parse call.function.arguments with
    | none => collectParams parse rest acc
    | some args => collectParams parse rest (collectOne acc args)

/-- mergedKey mirrors one `if len(xs) > 0` block when building
`mergedParams`: a single collected value keeps its shape, several are
wrapped into a JSON array. -/
def mergedKey (key : String) (vals : List Jv) : List (String × Jv) :=
  match vals with
  | [] => []
  | [v] => [(key, v)]
  | vs => [(key, Jv.arr vs)]

/-- buildMergedParams assembles the merged parameter object from the four
collected slices, mirroring the `mergedParams` construction. -/
def buildMergedParams (c : CollectedParams) : List (String × Jv) :=
  mergedKey "add_file" c.addFiles ++ mergedKey "remove_file" c.removeFiles ++
  mergedKey "add_directory" c.addDirs ++ mergedKey "remove_directory" c.removeDirs

/-- mergeUpdateContextCalls embeds `(*AgentConfig).mergeUpdateContextCalls`
from `agent.go`: it keeps the first call's id, collects the four parameter
keys across all parseable calls, re-marshals them, and falls back to the
first call unchanged if marshalling fails. -/
def mergeUpdateContextCalls (parse : JParse) (marshal : JMarshal)
    (calls : List ToolCall) : ToolCall :=
  match calls with
  | [] => ⟨"", "", ⟨"", ""⟩⟩
  | firstCall :: _ =>
    let merged := collectParams parse calls emptyParams
    match marshal (buildMergedParams merged) with
    | none => firstCall
    | some argsStr =>
      ⟨firstCall.id, "function", ⟨"update_context", argsStr⟩⟩

/-- isUpdateContext tests the separation predicate of
`ConsolidateUpdateContextCalls`. -/
def isUpdateContext (c : ToolCall) : Bool :=
  c.function.name == "update_context"

/-- consolidateUpdateContextCalls embeds
`(*AgentConfig).ConsolidateUpdateContextCalls` from `agent.go`. -/
def consolidateUpdateContextCalls (parse : JParse) (marshal : JMarshal)
    (toolCalls : List ToolCall) : List ToolCall :=
  if toolCalls.length ≤ 1 then toolCalls
  else
    let updateContextCalls := toolCalls.filter isUpdateContext
    let otherCalls := toolCalls.filter (fun c => !isUpdateContext c)
    if 1 < updateContextCalls.length then
      mergeUpdateContextCalls parse marshal updateContextCalls :: otherCalls
    else
      toolCalls

/-! String helpers modelling Go's `strings` package on character lists.
Go operates on bytes; the claims only involve ASCII data, where bytes and
characters coincide. -/

/-- listStarts decides whether the first list is a leading segment of the
second (Go `strings.HasPrefix` on rune lists). -/
def listStarts : List Char → List Char → Bool
  | [], _ => true
  | _ :: _, [] => false
  | a :: as, b :: bs => a == b && listStarts as bs

/-- listHasSub decides whether `sub` occurs contiguously inside the second
list (Go `strings.Contains` on rune lists). -/
def listHasSub (sub : List Char) : List Char → Bool
  | [] => sub.isEmpty
  | c :: rest => listStarts sub (c :: rest) || listHasSub sub rest

/-- goContains embeds Go's `strings.Contains(s, sub)`. -/
def goContains (s sub : String) : Bool :=
  listHasSub sub.data s.data

/-- splitOnNL embeds Go's `strings.Split(s, "\n")` on a character list; it
always returns at least one (possibly empty) segment. -/
def splitOnNL : List Char → List (List Char)
  | [] => [[]]
  | c :: rest =>
    match splitOnNL rest with
    | [] => if c == '\n' then [[], []] else [[c]]
    | l :: ls => if c == '\n' then [] :: l :: ls else (c :: l) :: ls

/-! Live Context store, embedded from `live_context.go`. Go's
`map[string]FileInfo` / `map[string]DirectoryInfo` are modelled as
association lists with the map's key-uniqueness maintained by an upsert
operation; the Go filesystem is an explicit parameter `Fs`. -/

/-- FileInfo mirrors `FileInfo` of `live_context.go` (path, 1-based start
line, optional end line where a negative value counts from the end). -/
structure FileInfo where
  path : String
  startLine : Int
  endLine : Option Int
  deriving DecidableEq, Repr

/-- DirectoryInfo mirrors `DirectoryInfo` of `live_context.go`. -/
structure DirectoryInfo where
  path : String
  ignoreGitignore : Bool
  ignorePatterns : List String
  deriving DecidableEq, Repr

/-- LiveContext mirrors the `LiveContext` struct: tracked files and
directories keyed by the path string exactly as given. -/
structure LiveContext where
  files : List (String × FileInfo)
  directories : List (String × DirectoryInfo)
  deriving DecidableEq, Repr

/-- emptyLiveContext mirrors `NewLiveContext`. -/
def emptyLiveContext : LiveContext := ⟨[], []⟩

/-- mapInsert models Go's `m[k] = v`: replace the entry of an existing key
in place, append a fresh key at the end. -/
def mapInsert (k : String) (v : α) : List (String × α) → List (String × α)
  | [] => [(k, v)]
  | (k', v') :: rest =>
    if k' == k then (k, v) :: rest else (k', v') :: mapInsert k v rest

/-- mapErase models Go's `delete(m, k)` under the map's key uniqueness. -/
def mapErase (k : String) (m : List (String × α)) : List (String × α) :=
  m.filter (fun kv => kv.1 != k)

/-- mapHasKey models Go's `_, exists := m[k]`. -/
def mapHasKey (k : String) (m : List (String × α)) : Bool :=
  m.any (fun kv => kv.1 == k)

/-- addFile embeds `(*LiveContext).AddFile`: an empty path is rejected, a
non-positive start line is clamped to 1, and the entry is stored under the
raw path key. -/
def addFile (lc : LiveContext) (filePath : String) (startLine : Int)
    (endLine : Option Int) : Except String LiveContext :=
  if filePath == "" then .error "file path cannot be empty"
  else
    let startLine := if startLine ≤ 0 then 1 else startLine
    .ok { lc with files := mapInsert filePath ⟨filePath, startLine, endLine⟩ lc.files }

/-- removeFile embeds `(*LiveContext).RemoveFile`. -/
def removeFile (lc : LiveContext) (filePath : String) : Except String LiveContext :=
  if mapHasKey filePath lc.files then
    .ok { lc with files := mapErase filePath lc.files }
  else
    .error ("file " ++ filePath ++ " not found in live context")

/-- addDirectory embeds `(*LiveContext).AddDirectory`. -/
def addDirectory (lc : LiveContext) (dirPath : String) (ignoreGitignore : Bool)
    (ignorePatterns : List String) : Except String LiveContext :=
  if dirPath == "" then .error "directory path cannot be empty"
  else
    .ok { lc with
          directories := mapInsert dirPath ⟨dirPath, ignoreGitignore, ignorePatterns⟩ lc.directories }

/-- removeDirectory embeds `(*LiveContext).RemoveDirectory`. -/
def removeDirectory (lc : LiveContext) (dirPath : String) : Except String LiveContext :=
  if mapHasKey dirPath lc.directories then
    .ok { lc with directories := mapErase dirPath lc.directories }
  else
    .error ("directory " ++ dirPath ++ " not found in live context")

/-- Fs models the on-disk filesystem as seen by `os.ReadFile`: the current
content of each path, or `none` when reading fails. -/
def Fs : Type := String → Option String

/-- processLines embeds the per-line processing loop of
`readFileWithOptions`: stop with a truncation marker after 2000 processed
lines, cut any line beyond 2000 characters, and add `N: ` line-number
tags when a subrange of the file was requested. -/
def processLines (numbered : Bool) : List (List Char) → Int → Nat → List String
  | [], _, _ => []
  | line :: rest, lineNum, produced =>
    if 2000 < produced then
      ["... (truncated after " ++ toString produced ++ " lines)"]
    else
      let line := if 2000 < line.length then line.take 2000 ++ "...".data else line
      let rendered :=
        if numbered then toString lineNum ++ ": " ++ String.mk line else String.mk line
      rendered :: processLines numbered rest (lineNum + 1) (produced + 1)

/-- readFileWithOptions embeds `(*LiveContext).readFileWithOptions`: it
re-reads the file content from the filesystem passed at call time, slices
the requested line range with clamping, and rejects an out-of-range start
or an end before the start. -/
def readFileWithOptions (fs : Fs) (fi : FileInfo) : Except String String :=
  match fs fi.path with
  | none => .error ("read failed: " ++ fi.path)
  | some content =>
    let lines := splitOnNL content.data
    let totalLines : Int := lines.length
    let startLine := if fi.startLine < 1 then 1 else fi.startLine
    if totalLines < startLine then
      .error ("start line " ++ toString startLine ++ " exceeds file length " ++ toString totalLines)
    else
      let endLine0 :=
        match fi.endLine with
        | none => totalLines
        | some e => if e < 0 then totalLines + e + 1 else e
      let endLine := if totalLines < endLine0 then totalLines else endLine0
      if endLine < startLine then
        .error ("end line " ++ toString endLine ++ " is before start line " ++ toString startLine)
      else
        let selected := (lines.drop (startLine - 1).toNat).take (endLine - startLine + 1).toNat
        let numbered := decide (1 < fi.startLine) || fi.endLine.isSome
        .ok (String.intercalate "\n" (processLines numbered selected startLine 0))

/-- endLineString renders the `[Lines s:e]` end bound of a file header. -/
def endLineString (fi : FileInfo) : String :=
  match fi.endLine with
  | none => "end"
  | some e => toString e

/-- fileHeader renders the `--- FILE: ... ---` section header of
`SerializeFiles`. -/
def fileHeader (key : String) (fi : FileInfo) : String :=
  "\n--- FILE: " ++ key ++ " [Lines " ++ toString fi.startLine ++ ":" ++ endLineString fi ++ "]---"

/-- fileBody renders the content (or read-error) section that
`SerializeFiles` appends after each header. -/
def fileBody (fs : Fs) (fi : FileInfo) : String :=
  match readFileWithOptions fs fi with
  | .error e => "Error reading file: " ++ e
  | .ok c => c

/-- serializeFiles embeds `(*LiveContext).SerializeFiles`: a banner, then
for every tracked file its header and its freshly read content, and a
placeholder when nothing is tracked. The `Fs` argument is the state of the
disk at call time; `FileInfo` carries no content field to cache. -/
def serializeFiles (fs : Fs) (lc : LiveContext) : String :=
  let sections := "\n--- FILES ---" ::
    ((lc.files.map (fun kv => [fileHeader kv.1 kv.2, fileBody fs kv.2])).flatten ++
      (if lc.files.isEmpty then ["No files in live context"] else []))
  String.intercalate "\n" sections

/-! Directory trees, embedded from `generateDirectoryTree` in
`live_context.go`. The directory portion of the disk is modelled as a
finite tree of named entries; `os.ReadDir` becomes a lookup along a
segment path, with entries in the listed (sorted) order. -/

/-- FsNode models one on-disk entry: a file with a byte size or a
directory with its (sorted) child listing. -/
inductive FsNode where
  | file (size : Nat) : FsNode
  | dir (entries : List (String × FsNode)) : FsNode

/-- FsNode.isDir mirrors `entry.IsDir()`. -/
def FsNode.isDir : FsNode → Bool
  | .dir _ => true
  | .file _ => false

/-- FsNode.sizeBytes mirrors `info.Size()` for file entries. -/
def FsNode.sizeBytes : FsNode → Nat
  | .dir _ => 0
  | .file n => n

/-- lookupNode walks a relative segment path down a tree. -/
def lookupNode : List String → FsNode → Option FsNode
  | [], n => some n
  | s :: rest, .dir es =>
    match es.lookup s with
    | some n => lookupNode rest n
    | none => none
  | _ :: _, .file _ => none

/-- readDir models `os.ReadDir` on the tree rooted at a tracked directory:
it yields the child listing of the directory at `segs`, failing on missing
paths and non-directories. -/
def readDir (root : Option FsNode) (segs : List String) : Option (List (String × FsNode)) :=
  match root with
  | none => none
  | some r =>
    match lookupNode segs r with
    | some (.dir es) => some es
    | _ => none

/-- maxItems is the fixed total-item cap of `generateDirectoryTree`. -/
def maxItems : Nat := 100

/-- maxDepth is the fixed depth ceiling of `generateDirectoryTree`. -/
def maxDepth : Nat := 10

/-- defaultIgnores is the built-in exclusion list of
`generateDirectoryTree`. -/
def defaultIgnores : List String :=
  [".git", "node_modules", ".vscode", ".idea", ".DS_Store"]

/-- nameStartsWithDot mirrors `strings.HasPrefix(name, ".")`. -/
def nameStartsWithDot (s : String) : Bool :=
  match s.data with
  | '.' :: _ => true
  | _ => false

/-- strEnds mirrors `strings.HasSuffix`. -/
def strEnds (s suf : String) : Bool :=
  listStarts suf.data.reverse s.data.reverse

/-- skipEntry collects the three entry filters of the traversal: the
ignore set, hidden dotfiles, and `.log` files. -/
def skipEntry (ignoreSet : List String) (name : String) : Bool :=
  ignoreSet.contains name || nameStartsWithDot name || strEnds name ".log"

/-- fmtTenths renders `t` tenths as a one-decimal number, a fixed-point
model of Go's `%.1f` formatting (rounding half away from zero). -/
def fmtTenths (t : Nat) : String :=
  toString (t / 10) ++ "." ++ toString (t % 10)

/-- sizeSuffix mirrors the human-readable size suffix attached to file
entries (`%.1f` modelled in fixed point). -/
def sizeSuffix (size : Nat) : String :=
  if size < 1024 then " (" ++ toString size ++ " B)"
  else if size < 1024 * 1024 then " (" ++ fmtTenths ((size * 10 + 512) / 1024) ++ " KB)"
  else " (" ++ fmtTenths ((size * 10 + 524288) / (1024 * 1024)) ++ " MB)"

/-- visibleEntries is the per-directory entry list the traversal walks:
the filters applied, then directories before files. -/
def visibleEntries (ignoreSet : List String) (entries : List (String × FsNode)) :
    List (String × FsNode) :=
  let filtered := entries.filter (fun e => !skipEntry ignoreSet e.1)
  filtered.filter (fun e => e.2.isDir) ++ filtered.filter (fun e => !e.2.isDir)

/-- addEntries embeds the inner per-directory loop of
`generateDirectoryTree`: append one display line per entry until the total
cap is reached, queueing subdirectories; it returns the grown results, the
queue additions, the number of items added, and whether it stopped early
at the cap. -/
def addEntries (segs : List String) (depth : Nat) :
    List (String × FsNode) → List String → List (List String × Nat) → Nat →
    List String × List (List String × Nat) × Nat × Bool
  | [], results, qacc, items => (results, qacc, items, false)
  | (name, node) :: rest, results, qacc, items =>
    if maxItems ≤ results.length then (results, qacc, items, true)
    else
      let rel := String.intercalate "/" (segs ++ [name])
      let display :=
        if node.isDir then "./" ++ rel ++ "/"
        else "./" ++ rel ++ sizeSuffix node.sizeBytes
      let qacc := if node.isDir then qacc ++ [(segs ++ [name], depth + 1)] else qacc
      addEntries segs depth rest (results ++ [display]) qacc (items + 1)

/-- bfsLoop embeds the breadth-first queue loop of
`generateDirectoryTree`. The fuel argument only serves Lean's termination;
each popped directory enqueues at most as many items as it adds to the
capped results, so `maxItems + 2` units of fuel are never exhausted. -/
def bfsLoop (root : Option FsNode) (ignoreSet : List String) :
    Nat → List (List String × Nat) → List String → List (List String) →
    List String × List (List String)
  | 0, _, results, trunc => (results, trunc)
  | _ + 1, [], results, trunc => (results, trunc)
  | fuel + 1, (segs, depth) :: rest, results, trunc =>
    if maxItems ≤ results.length then (results, trunc)
    else if maxDepth < depth then bfsLoop root ignoreSet fuel rest results trunc
    else
      match readDir root segs with
      | none => bfsLoop root ignoreSet fuel rest results trunc
      | some entries =>
        let allEntries := visibleEntries ignoreSet entries
        let r := addEntries segs depth allEntries results [] 0
        let trunc' :=
          if r.2.2.2 || r.2.2.1 < allEntries.length then
            if trunc.contains segs then trunc else trunc ++ [segs]
          else trunc
        bfsLoop root ignoreSet fuel (rest ++ r.2.1) r.1 trunc'

/-- generateDirectoryTreeLines embeds `generateDirectoryTree` up to the
final newline join: the capped breadth-first listing followed by one
truncation indicator per truncated directory. The Go indicator loop
computes `filepath.Rel(d, d)`, which is always `"."` (the loop variable
shadows the root path), so every indicator renders as `"./..."`. -/
def generateDirectoryTreeLines (root : Option FsNode) (ignoreGitignore : Bool)
    (ignorePatterns : List String) : List String :=
  let _ := ignoreGitignore
  let ignoreSet := defaultIgnores ++ ignorePatterns
  let r := bfsLoop root ignoreSet (maxItems + 2) [([], 0)] [] []
  r.1 ++ r.2.map (fun _ => "./...")

/-- generateDirectoryTree embeds `generateDirectoryTree` of
`live_context.go` (which always returns a nil error). -/
def generateDirectoryTree (root : Option FsNode) (ignoreGitignore : Bool)
    (ignorePatterns : List String) : String :=
  String.intercalate "\n" (generateDirectoryTreeLines root ignoreGitignore ignorePatterns)

/-- DirFs models the directory portion of the disk: each path resolves to
the tree currently rooted there, or `none` when reading fails. -/
def DirFs : Type := String → Option FsNode

/-- serializeDirectories embeds `(*LiveContext).SerializeDirectories`; the
error branch is dead code because `generateDirectoryTree` always returns a
nil error. -/
def serializeDirectories (dfs : DirFs) (lc : LiveContext) : String :=
  let sections := "\n--- DIRECTORY STRUCTURES ---" ::
    ((lc.directories.map (fun kv =>
        ["\n--- DIRECTORY: " ++ kv.1 ++ " ---",
         generateDirectoryTree (dfs kv.2.path) kv.2.ignoreGitignore kv.2.ignorePatterns])).flatten ++
      (if lc.directories.isEmpty then ["No directories in live context"] else []))
  String.intercalate "\n" sections

/-! Message log and the agent loop, embedded from `agent.go`. Timestamps
(`time.Now()`) carry no behavioural content for the claims and are
modelled as the constant 0. -/

/-- Message mirrors the `Message` struct of `agent.go` (which has no
lifecycle-status field). -/
structure Message where
  role : String
  content : String
  timestamp : Nat
  toolName : String
  toolUseID : String
  toolCalls : List ToolCall
  deriving DecidableEq, Repr

/-- ToolResult mirrors the `ToolResult` struct of `agent.go`. -/
structure ToolResult where
  id : String
  name : String
  content : String
  isError : Bool
  deriving DecidableEq, Repr

/-- userMessage mirrors `AddUserMessage`'s constructed message. -/
def userMessage (content : String) : Message := ⟨"user", content, 0, "", "", []⟩

/-- agentMessage mirrors `AddAgentMessage`'s constructed message. -/
def agentMessage (content : String) : Message := ⟨"assistant", content, 0, "", "", []⟩

/-- agentMessageWithToolCalls mirrors `AddAgentMessageWithToolCalls`. -/
def agentMessageWithToolCalls (content : String) (calls : List ToolCall) : Message :=
  ⟨"assistant", content, 0, "", "", calls⟩

/-- toolResultMessage mirrors the per-result message constructed by
`AddToolResultsMessage`. -/
def toolResultMessage (r : ToolResult) : Message :=
  ⟨"tool", r.content, 0, r.name, r.id, []⟩

/-- addToolResultsMessages embeds `(*AgentConfig).AddToolResultsMessage`:
one `tool`-role message appended per result. -/
def addToolResultsMessages (msgs : List Message) (results : List ToolResult) : List Message :=
  msgs ++ results.map toolResultMessage

/-- msgMatches is the match predicate of `DeleteMessage`: same role and
the content contains the given substring. -/
def msgMatches (role contentContains : String) (m : Message) : Bool :=
  m.role == role && goContains m.content contentContains

/-- deleteMessage embeds `(*AgentConfig).DeleteMessage`: it scans the log
in order and splices the first matching message out of the slice,
returning whether a match was found (the Go error result is always nil). -/
def deleteMessage (messages : List Message) (role contentContains : String) :
    Bool × List Message :=
  match messages with
  | [] => (false, [])
  | m :: ms =>
    if msgMatches role contentContains m then (true, ms)
    else
      let r := deleteMessage ms role contentContains
      (r.1, m :: r.2)

/-- maxConsecutiveFailures is the fixed failure budget of
`ProcessWithDirectService`. -/
def maxConsecutiveFailures : Nat := 3

/-- runToolCalls embeds the tool-dispatch loop of
`ProcessWithDirectService`: it executes calls sequentially against the
dispatcher `exec`, incrementing the consecutive-failure counter on each
failure and resetting it on success, and stops early the moment the
counter reaches the budget. It returns the gathered results, the counter,
the `allToolsSucceeded` flag, and whether it aborted at the budget. -/
def runToolCalls (exec : ToolCall → Except String String) :
    List ToolCall → Nat → List ToolResult → Bool →
    List ToolResult × Nat × Bool × Bool
  | [], cf, acc, allOk => (acc, cf, allOk, false)
  | tc :: rest, cf, acc, allOk =>
    match exec tc with
    | .error e =>
      let cf := cf + 1
      let acc := acc ++ [⟨tc.id, tc.function.name, "Tool execution failed: " ++ e, true⟩]
      if maxConsecutiveFailures ≤ cf then (acc, cf, false, true)
      else runToolCalls exec rest cf acc false
    | .ok result =>
      runToolCalls exec rest 0 (acc ++ [⟨tc.id, tc.function.name, result, false⟩]) allOk

/-- LoopOutcome tags how the conversation loop of
`ProcessWithDirectService` ended. -/
inductive LoopOutcome where
  | done : LoopOutcome
  | failedBudget (failures : Nat) : LoopOutcome
  | awaitingBackend : LoopOutcome
  deriving DecidableEq, Repr

/-- processIterations embeds the iteration loop of
`ProcessWithDirectService` (`maxIterations = -1`, so the loop is bounded
only by the backend): each iteration consumes one backend reply
(content and tool calls) from the oracle list. A reply with no tool calls
appends the assistant message and ends the loop; otherwise the calls are
consolidated, the assistant message with the consolidated calls is
appended, the calls are dispatched under the failure budget, the gathered
tool results are appended, and on an aborted budget the loop stops with a
hard error. An exhausted oracle means the loop would next block on the
backend. -/
def processIterations (parse : JParse) (marshal : JMarshal)
    (exec : ToolCall → Except String String) :
    List (String × List ToolCall) → Nat → List Message → List Message × LoopOutcome
  | [], _, msgs => (msgs, .awaitingBackend)
  | (content, toolCalls) :: restOracle, cf, msgs =>
    if toolCalls.isEmpty then (msgs ++ [agentMessage content], .done)
    else
      let consolidated := consolidateUpdateContextCalls parse marshal toolCalls
      let msgs := msgs ++ [agentMessageWithToolCalls content consolidated]
      let r := runToolCalls exec consolidated cf [] true
      let msgs := addToolResultsMessages msgs r.1
      if r.2.2.2 then (msgs, .failedBudget maxConsecutiveFailures)
      else if !r.2.2.1 then
        processIterations parse marshal exec restOracle r.2.1
          (msgs ++ [userMessage "Please fix the error and try again."])
      else
        processIterations parse marshal exec restOracle r.2.1 msgs

/-- processWithDirectService embeds `(*AgentConfig).ProcessWithDirectService`
for successful backend replies: the user message is appended first and the
iteration loop starts with a zero failure counter. -/
def processWithDirectService (parse : JParse) (marshal : JMarshal)
    (exec : ToolCall → Except String String)
    (oracle : List (String × List ToolCall)) (msgs : List Message)
    (userInput : String) : List Message × LoopOutcome :=
  processIterations parse marshal exec oracle 0 (msgs ++ [userMessage userInput])

/-! Streaming request, embedded from `models.Request`
(`models/openai_service.go`); `api.Invoke` (`api/openai_service.go`) has
byte-identical termination handling. The backend stream is modelled as the
chunk sequence the loop observed plus the terminal status reported by
`chatStream.Err()`. -/

/-- StreamErr models the terminal stream error: `canceled` stands for any
error satisfying `errors.Is(err, context.Canceled)`. -/
inductive StreamErr where
  | canceled : StreamErr
  | other (msg : String) : StreamErr
  deriving DecidableEq, Repr

/-- StreamChunk models one observed chunk: the content delta (empty for
chunks with no choices) and the tool call the accumulator reports finished
after this chunk, as an (id, name, arguments) triple. -/
structure StreamChunk where
  deltaContent : String
  finishedCall : Option (String × String × String)
  deriving DecidableEq, Repr

/-- SurfacedErr models the wrapped error returned by `models.Request`:
`fmt.Errorf("request cancelled: %w", err)` versus
`fmt.Errorf("%s stream error: %w", provider, err)`; the `%w` wrapping
keeps the two causes distinguishable by the caller. -/
inductive SurfacedErr where
  | cancelled (inner : StreamErr) : SurfacedErr
  | streamFailed (provider : String) (inner : StreamErr) : SurfacedErr
  deriving DecidableEq, Repr

/-- accumulateChunks embeds the streaming loop body: content deltas are
concatenated in arrival order and finished tool calls are collected with
type `"function"`. -/
def accumulateChunks : List StreamChunk → String → List ToolCall → String × List ToolCall
  | [], content, calls => (content, calls)
  | ch :: rest, content, calls =>
    let content := content ++ ch.deltaContent
    let calls :=
      match ch.finishedCall with
      | some (i, n, a) => calls ++ [⟨i, "function", ⟨n, a⟩⟩]
      | none => calls
    accumulateChunks rest content calls

/-- requestStream embeds the termination handling of `models.Request`: the
loop's accumulated content and tool calls are returned only on a clean
end of stream; a terminal error is surfaced (cancellation distinguished
from all other causes) with empty content and no tool calls. -/
def requestStream (provider : String) (chunks : List StreamChunk)
    (streamErr : Option StreamErr) : String × List ToolCall × Option SurfacedErr :=
  let acc := accumulateChunks chunks "" []
  match streamErr with
  | some .canceled => ("", [], some (.cancelled .canceled))
  | some (.other m) => ("", [], some (.streamFailed provider (.other m)))
  | none => (acc.1, acc.2, none)

/-! Shell tool, embedded from `executeCommand` in `tools/shell.go` (the
shell tool `agent.go` registers). The real-time behaviour — the
30-second `context.WithTimeout` deadline firing and `exec.CommandContext`
killing the subprocess — is abstracted into the outcome flags below; the
embedding covers the classification and reporting logic that runs after
`cmd.Wait()` returns. -/

/-- shellTimeoutSeconds is the fixed per-command deadline `s.timeout`
installed by `NewShellTool` (30 seconds), applied via
`context.WithTimeout` on every `executeCommand` call regardless of the
surrounding turn. -/
def shellTimeoutSeconds : Nat := 30

/-- WaitErr models a non-nil result of `cmd.Wait()`. -/
inductive WaitErr where
  | exitErr (code : Int) : WaitErr
  | otherErr (msg : String) : WaitErr
  deriving DecidableEq, Repr

/-- CmdOutcome models one completed command execution: a pipe/start
failure if any, the combined captured output, the `cmd.Wait()` error, and
the states of the caller context and of the per-command deadline context
when `Wait` returned. -/
structure CmdOutcome where
  startErr : Option String
  output : String
  waitErr : Option WaitErr
  ctxCanceled : Bool
  deadlineExceeded : Bool
  deriving DecidableEq, Repr

/-- formatResult embeds `(*ShellTool).formatResult`. -/
def formatResult (output : String) (errMsg : Option String) : String :=
  match errMsg with
  | none => output
  | some e =>
    "Command failed: " ++ e ++ "\n" ++
      (if 0 < output.length then "\nOutput:\n" ++ output else "")

/-- executeCommand embeds the result classification of
`(*ShellTool).executeCommand`: pipe/start failures return a Go error;
every completed command — cancelled, timed out, non-zero exit, or other
wait failure — is reported as a normal tool result with a nil error. -/
def executeCommand (o : CmdOutcome) : String × Option String :=
  match o.startErr with
  | some e => ("", some ("failed to start command: " ++ e))
  | none =>
    match o.waitErr with
    | none => (o.output, none)
    | some w =>
      if o.ctxCanceled then
        (formatResult o.output (some "command cancelled"), none)
      else if o.deadlineExceeded then
        (formatResult o.output
          (some ("command timed out after " ++ toString shellTimeoutSeconds ++ "s")), none)
      else
        match w with
        | .exitErr code =>
          (formatResult o.output (some ("command failed with exit code " ++ toString code)), none)
        | .otherErr m =>
          (formatResult o.output (some ("command failed: " ++ m)), none)

/-- Modelled from the spec: the spec's data-model invariant says Live
Context entries are keyed by a *normalized* path. No normalization routine
exists in the source (`AddFile`/`AddDirectory` store the raw string), so
the minimal normalization any such notion includes — collapsing one
leading `./`, as Go's `filepath.Clean` does — is modelled here to state
that invariant. -/
def normalizePath (p : String) : String :=
  match p.data with
  | '.' :: '/' :: rest => String.mk rest
  | _ => p

/-- fsUpdate models editing the file at path `p` on disk so that its next
read yields `c`. -/
def fsUpdate (fs : Fs) (p : String) (c : Option String) : Fs :=
  fun q => if q = p then c else fs q

/-- shellCall builds a concrete non-`update_context` tool call used as a
test fixture. -/
def shellCall (i : String) : ToolCall := ⟨i, "function", ⟨"shell", "{}"⟩⟩

/-- updCall builds a concrete `update_context` tool call used as a test
fixture. -/
def updCall (i args : String) : ToolCall := ⟨i, "function", ⟨"update_context", args⟩⟩

/-- hiddenRoot is a directory whose 101 entries are all dotfiles: more
entries than `maxItems`, every one of them filtered out by `skipEntry`. -/
def hiddenRoot : FsNode :=
  .dir ((List.range 101).map (fun i => ("." ++ Nat.repr i, FsNode.file 1)))

/-- visibleRoot is a directory with 101 plain files, all of which survive
the entry filters. -/
def visibleRoot : FsNode :=
  .dir ((List.range 101).map (fun i => ("f" ++ Nat.repr i, FsNode.file 1)))

/-! Helper lemmas shared across the claims. -/

theorem filter_head_sat {α : Type} {p : α → Bool} {l : List α} {a : α} {as : List α}
    (h : l.filter p = a :: as) : p a = true := by
  have ha : a ∈ l.filter p := by
    rw [h]; exact List.mem_cons_self a as
  exact (List.mem_filter.mp ha).2

theorem filter_not_self {α : Type} (p : α → Bool) (l : List α) :
    (l.filter (fun a => !p a)).filter p = [] := by
  induction l with
  | nil => rfl
  | cons x xs ih => cases hpx : p x <;> simp [List.filter_cons, hpx, ih]

theorem filter_not_idem {α : Type} (p : α → Bool) (l : List α) :
    (l.filter (fun a => !p a)).filter (fun a => !p a) = l.filter (fun a => !p a) := by
  induction l with
  | nil => rfl
  | cons x xs ih => cases hpx : p x <;> simp [List.filter_cons, hpx, ih]

theorem mergeUpdateContextCalls_cons (parse : JParse) (marshal : JMarshal)
    (c : ToolCall) (cs : List ToolCall) :
    mergeUpdateContextCalls parse marshal (c :: cs) =
      match marshal (buildMergedParams (collectParams parse (c :: cs) emptyParams)) with
      | none => c
      | some argsStr => ⟨c.id, "function", ⟨"update_context", argsStr⟩⟩ := rfl

theorem mergeUpdateContextCalls_id (parse : JParse) (marshal : JMarshal)
    (c : ToolCall) (cs : List ToolCall) :
    (mergeUpdateContextCalls parse marshal (c :: cs)).id = c.id := by
  rw [mergeUpdateContextCalls_cons]
  cases marshal (buildMergedParams (collectParams parse (c :: cs) emptyParams)) <;> rfl

theorem mergeUpdateContextCalls_isUpdate (parse : JParse) (marshal : JMarshal)
    (c : ToolCall) (cs : List ToolCall) (hc : isUpdateContext c = true) :
    isUpdateContext (mergeUpdateContextCalls parse marshal (c :: cs)) = true := by
  rw [mergeUpdateContextCalls_cons]
  cases marshal (buildMergedParams (collectParams parse (c :: cs) emptyParams)) with
  | none => exact hc
  | some s => simp [isUpdateContext]

/-- C1: consolidating a turn with more than one `update_context` call
yields exactly one `update_context` call whose id is the id of the first
`update_context` call of the input, with the relative order of the
other calls preserved; a turn with at most one `update_context` call is
returned unchanged. Holds for every JSON codec behaviour. -/
theorem consolidate_exactly_one_update_call (parse : JParse) (marshal : JMarshal)
    (toolCalls : List ToolCall) :
    (1 < (toolCalls.filter isUpdateContext).length →
      ((consolidateUpdateContextCalls parse marshal toolCalls).filter isUpdateContext).length = 1 ∧
      ((consolidateUpdateContextCalls parse marshal toolCalls).filter
          isUpdateContext).head?.map ToolCall.id
        = (toolCalls.filter isUpdateContext).head?.map ToolCall.id ∧
      (consolidateUpdateContextCalls parse marshal toolCalls).filter (fun c => !isUpdateContext c)
        = toolCalls.filter (fun c => !isUpdateContext c)) ∧
    ((toolCalls.filter isUpdateContext).length ≤ 1 →
      consolidateUpdateContextCalls parse marshal toolCalls = toolCalls) := by
  constructor
  · intro h
    have hlen : ¬ toolCalls.length ≤ 1 := by
      have := List.length_filter_le isUpdateContext toolCalls
      omega
    obtain ⟨u, us, hU⟩ : ∃ u us, toolCalls.filter isUpdateContext = u :: us := by
      match hU : toolCalls.filter isUpdateContext with
      | [] => rw [hU] at h; simp at h
      | u :: us => exact ⟨u, us, rfl⟩
    have hu : isUpdateContext u = true := filter_head_sat hU
    have hres : consolidateUpdateContextCalls parse marshal toolCalls
        = mergeUpdateContextCalls parse marshal (toolCalls.filter isUpdateContext)
          :: toolCalls.filter (fun c => !isUpdateContext c) := by
      simp only [consolidateUpdateContextCalls]
      rw [if_neg hlen, if_pos h]
    rw [hres, hU]
    have hmu : isUpdateContext (mergeUpdateContextCalls parse marshal (u :: us)) = true :=
      mergeUpdateContextCalls_isUpdate parse marshal u us hu
    refine ⟨?_, ?_, ?_⟩
    · simp [List.filter_cons, hmu, filter_not_self]
    · simp [List.filter_cons, hmu, filter_not_self, mergeUpdateContextCalls_id]
    · simp [List.filter_cons, hmu, filter_not_idem]
  · intro h
    simp only [consolidateUpdateContextCalls]
    by_cases h1 : toolCalls.length ≤ 1
    · rw [if_pos h1]
    · rw [if_neg h1, if_neg (by omega)]

/-- Witness for `consolidate_exactly_one_update_call` at a concrete turn
with two `update_context` calls and one `shell` call. -/
theorem consolidate_exactly_one_update_call_witness :
    1 < (([updCall "id1" "{}", updCall "id2" "{}", shellCall "id3"].filter
        isUpdateContext).length) ∧
    ((consolidateUpdateContextCalls (fun _ => none) (fun _ => some "{}")
        [updCall "id1" "{}", updCall "id2" "{}", shellCall "id3"]).filter
        isUpdateContext).length = 1 ∧
    ((consolidateUpdateContextCalls (fun _ => none) (fun _ => some "{}")
        [updCall "id1" "{}", updCall "id2" "{}", shellCall "id3"]).filter
        isUpdateContext).head?.map ToolCall.id = some "id1" :=
  ⟨by decide,
   ((consolidate_exactly_one_update_call (fun _ => none) (fun _ => some "{}")
      [updCall "id1" "{}", updCall "id2" "{}", shellCall "id3"]).1 (by decide)).1,
   (((consolidate_exactly_one_update_call (fun _ => none) (fun _ => some "{}")
      [updCall "id1" "{}", updCall "id2" "{}", shellCall "id3"]).1 (by decide)).2.1).trans
     (by decide)⟩

theorem collectParams_append_bad (parse : JParse) (bad : ToolCall)
    (hbad : parse bad.function.arguments = none) :
    ∀ (l1 l2 : List ToolCall) (acc : CollectedParams),
      collectParams parse (l1 ++ bad :: l2) acc = collectParams parse (l1 ++ l2) acc := by
  intro l1
  induction l1 with
  | nil =>
    intro l2 acc
    simp only [List.nil_append, collectParams, hbad]
  | cons c cs ih =>
    intro l2 acc
    simp only [List.cons_append, collectParams]
    cases parse c.function.arguments <;> simp [ih]

/-- C9: a call whose argument string fails to parse contributes nothing
to the merged `update_context` call and is dropped with no error and no
error result of its own — merging with it present equals merging with it
absent; and when re-marshalling the merged parameters fails, the merge
returns the first call unchanged, discarding every other call's
parameters. -/
theorem merge_tolerates_codec_failures (parse : JParse) (marshal : JMarshal)
    (c bad : ToolCall) (cs ds : List ToolCall)
    (hbad : parse bad.function.arguments = none) :
    mergeUpdateContextCalls parse marshal (c :: (cs ++ bad :: ds)) =
      mergeUpdateContextCalls parse marshal (c :: (cs ++ ds)) ∧
    (marshal (buildMergedParams (collectParams parse (c :: (cs ++ ds)) emptyParams)) = none →
      mergeUpdateContextCalls parse marshal (c :: (cs ++ ds)) = c) := by
  constructor
  · rw [mergeUpdateContextCalls_cons, mergeUpdateContextCalls_cons]
    have hc := collectParams_append_bad parse bad hbad (c :: cs) ds emptyParams
    simp only [List.cons_append] at hc
    rw [hc]
  · intro hm
    rw [mergeUpdateContextCalls_cons, hm]

/-- Witness for `merge_tolerates_codec_failures` with an always-failing
codec: the unparseable second call is dropped and the failed re-marshal
returns the first call unchanged. -/
theorem merge_tolerates_codec_failures_witness :
    mergeUpdateContextCalls (fun _ => none) (fun _ => none)
        [updCall "i1" "a", updCall "i2" "b"]
      = mergeUpdateContextCalls (fun _ => none) (fun _ => none) [updCall "i1" "a"] ∧
    mergeUpdateContextCalls (fun _ => none) (fun _ => none) [updCall "i1" "a"]
      = updCall "i1" "a" :=
  ⟨(merge_tolerates_codec_failures (fun _ => none) (fun _ => none)
      (updCall "i1" "a") (updCall "i2" "b") [] [] rfl).1,
   (merge_tolerates_codec_failures (fun _ => none) (fun _ => none)
      (updCall "i1" "a") (updCall "i2" "b") [] [] rfl).2 rfl⟩

theorem countP_zero_any_false {α : Type} (p : α → Bool) :
    ∀ l : List α, l.countP p = 0 → l.any p = false := by
  intro l
  induction l with
  | nil => intro _; rfl
  | cons a l ih =>
    intro h
    cases hpa : p a
    · have hl : l.countP p = 0 := by simpa [List.countP_cons, hpa] using h
      simp [List.any_cons, hpa, ih hl]
    · exfalso
      simp [List.countP_cons, hpa] at h

theorem eraseP_any_of_countP_one {α : Type} (p : α → Bool) :
    ∀ l : List α, l.countP p = 1 → (l.eraseP p).any p = false := by
  intro l
  induction l with
  | nil => intro h; simp [List.countP_nil] at h
  | cons a l ih =>
    intro h
    cases hpa : p a
    · have hl : l.countP p = 1 := by simpa [List.countP_cons, hpa] using h
      simp [List.eraseP_cons, hpa, List.any_cons, ih hl]
    · have hl : l.countP p = 0 := by simpa [List.countP_cons, hpa] using h
      simp [List.eraseP_cons, hpa, countP_zero_any_false p l hl]

theorem deleteMessage_eq_eraseP (messages : List Message) (role sub : String) :
    deleteMessage messages role sub =
      (messages.any (msgMatches role sub), messages.eraseP (msgMatches role sub)) := by
  induction messages with
  | nil => rfl
  | cons m ms ih =>
    cases hm : msgMatches role sub m
    · simp [deleteMessage, hm, ih, List.eraseP_cons, List.any_cons]
    · simp [deleteMessage, hm, List.eraseP_cons, List.any_cons]

/-- C3 counterexample: deleting the only matching message physically
removes it from the log — the result list is empty, not a one-element
list holding a tombstoned message, so deletion is not a status flip. -/
theorem delete_message_not_a_tombstone :
    deleteMessage [userMessage "hello"] "user" "hell" = (true, []) ∧
    (deleteMessage [userMessage "hello"] "user" "hell").2.length ≠ 1 := by
  decide

/-- C3 (amended): deleting a message by role and content-substring
physically removes exactly the first matching message from the log (the
Go code splices it out of the slice) and leaves every other message
untouched in order; when nothing matches the log is returned unchanged
with a `false` found-flag; and when exactly one message matched, a second
delete with the same arguments finds no match. -/
theorem delete_message_removes_first_match (messages : List Message) (role sub : String) :
    deleteMessage messages role sub =
      (messages.any (msgMatches role sub), messages.eraseP (msgMatches role sub)) ∧
    ((∀ m ∈ messages, msgMatches role sub m = false) →
      deleteMessage messages role sub = (false, messages)) ∧
    (messages.countP (msgMatches role sub) = 1 →
      (deleteMessage (deleteMessage messages role sub).2 role sub).1 = false) := by
  refine ⟨deleteMessage_eq_eraseP messages role sub, ?_, ?_⟩
  · intro hall
    rw [deleteMessage_eq_eraseP]
    have hzero : messages.countP (msgMatches role sub) = 0 :=
      List.countP_eq_zero.mpr (fun m hm => by simp [hall m hm])
    have h1 : messages.any (msgMatches role sub) = false :=
      countP_zero_any_false _ _ hzero
    have h2 : messages.eraseP (msgMatches role sub) = messages :=
      List.eraseP_of_forall_not (fun m hm => by simp [hall m hm])
    rw [h1, h2]
  · intro hcount
    rw [deleteMessage_eq_eraseP, deleteMessage_eq_eraseP]
    exact eraseP_any_of_countP_one _ _ hcount

/-- Witness for `delete_message_removes_first_match` on a one-message
log: the characterization holds and a second delete finds no match. -/
theorem delete_message_removes_first_match_witness :
    deleteMessage [userMessage "hello"] "user" "hell"
      = ([userMessage "hello"].any (msgMatches "user" "hell"),
         [userMessage "hello"].eraseP (msgMatches "user" "hell")) ∧
    (deleteMessage (deleteMessage [userMessage "hello"] "user" "hell").2 "user" "hell").1
      = false :=
  ⟨(delete_message_removes_first_match [userMessage "hello"] "user" "hell").1,
   (delete_message_removes_first_match [userMessage "hello"] "user" "hell").2.2 (by decide)⟩

theorem mapInsert_forall {α : Type} (P : String × α → Prop) (k : String) (v : α)
    (hP : P (k, v)) :
    ∀ m : List (String × α), (∀ kv ∈ m, P kv) → ∀ kv ∈ mapInsert k v m, P kv := by
  intro m
  induction m with
  | nil =>
    intro _ kv hmem
    simp only [mapInsert, List.mem_singleton] at hmem
    exact hmem ▸ hP
  | cons hd tl ih =>
    intro hall kv hmem
    obtain ⟨k', v'⟩ := hd
    simp only [mapInsert] at hmem
    by_cases hk : (k' == k) = true
    · rw [if_pos hk] at hmem
      rcases List.mem_cons.mp hmem with h | h
      · exact h ▸ hP
      · exact hall _ (List.mem_cons_of_mem _ h)
    · rw [if_neg hk] at hmem
      rcases List.mem_cons.mp hmem with h | h
      · exact h ▸ hall _ (List.mem_cons_self _ _)
      · exact ih (fun x hx => hall _ (List.mem_cons_of_mem _ hx)) _ h

/-- C10: `AddFile` fails exactly on the empty path, an accepted call with
a non-positive start line stores the entry with its start line clamped
to 1, and consequently the invariant that no tracked entry holds a start
line below 1 is preserved by every accepted call. -/
theorem add_file_empty_check_and_clamp (lc : LiveContext) (p : String) (s : Int)
    (e : Option Int) :
    (p = "" → addFile lc p s e = .error "file path cannot be empty") ∧
    (p ≠ "" → addFile lc p s e =
      .ok { lc with files := mapInsert p ⟨p, if s ≤ 0 then 1 else s, e⟩ lc.files }) ∧
    (∀ lc', addFile lc p s e = .ok lc' →
      (∀ kv ∈ lc.files, 1 ≤ kv.2.startLine) → ∀ kv ∈ lc'.files, 1 ≤ kv.2.startLine) := by
  refine ⟨?_, ?_, ?_⟩
  · intro hp
    have hb : (p == "") = true := by simp [hp]
    simp [addFile, hb]
  · intro hp
    have hb : (p == "") = false := by simpa using hp
    simp [addFile, hb]
  · intro lc' hok hinv
    by_cases hp : p = ""
    · have hb : (p == "") = true := by simp [hp]
      simp [addFile, hb] at hok
    · have hb : (p == "") = false := by simpa using hp
      simp only [addFile, hb, Bool.false_eq_true, if_false, Except.ok.injEq] at hok
      subst hok
      intro kv hkv
      refine mapInsert_forall (fun kv => 1 ≤ kv.2.startLine) p _ ?_ lc.files hinv kv hkv
      by_cases hs : s ≤ 0
      · simp [hs]
      · simp only [if_neg hs]
        omega

/-- Witness for `add_file_empty_check_and_clamp`: adding path `a` with
start line `-5` stores the entry with start line 1. -/
theorem add_file_empty_check_and_clamp_witness :
    addFile emptyLiveContext "a" (-5) none =
      .ok { emptyLiveContext with
            files := mapInsert "a" ⟨"a", if (-5 : Int) ≤ 0 then 1 else -5, none⟩
              emptyLiveContext.files } ∧
    (∀ kv ∈ (mapInsert "a" (⟨"a", 1, none⟩ : FileInfo) []), 1 ≤ kv.2.startLine) :=
  ⟨(add_file_empty_check_and_clamp emptyLiveContext "a" (-5) none).2.1 (by decide),
   by decide⟩

/-- C8 counterexample: the store keys paths by the raw string, not by a
normalized path — `./a` and `a` normalize to the same path yet produce
two distinct tracked entries, where the claim requires the second add to
replace the first. -/
theorem add_file_no_path_normalization :
    normalizePath "./a" = normalizePath "a" ∧
    (∃ lc1 lc2, addFile emptyLiveContext "./a" 1 none = .ok lc1 ∧
      addFile lc1 "a" 1 none = .ok lc2 ∧
      lc2.files.length = 2 ∧
      lc2.files.countP (fun kv => normalizePath kv.1 == normalizePath "a") = 2) := by
  refine ⟨by decide, ⟨⟨[("./a", ⟨"./a", 1, none⟩)], []⟩,
    ⟨[("./a", ⟨"./a", 1, none⟩), ("a", ⟨"a", 1, none⟩)], []⟩, ?_, ?_, ?_, ?_⟩⟩
  · rfl
  · rfl
  · rfl
  · decide

theorem mapInsert_keys_mem {α : Type} (k : String) (v : α) :
    ∀ m : List (String × α), ∀ x, x ∈ (mapInsert k v m).map Prod.fst →
      x = k ∨ x ∈ m.map Prod.fst := by
  intro m
  induction m with
  | nil =>
    intro x hx
    simp [mapInsert] at hx
    exact Or.inl hx
  | cons hd tl ih =>
    intro x hx
    obtain ⟨k', v'⟩ := hd
    simp only [mapInsert] at hx
    by_cases hk : (k' == k) = true
    · rw [if_pos hk] at hx
      rcases List.mem_cons.mp hx with h | h
      · exact Or.inl h
      · exact Or.inr (List.mem_cons_of_mem _ h)
    · rw [if_neg hk] at hx
      rcases List.mem_cons.mp hx with h | h
      · exact Or.inr (h ▸ List.mem_cons_self _ _)
      · rcases ih x h with h' | h'
        · exact Or.inl h'
        · exact Or.inr (List.mem_cons_of_mem _ h')

theorem mapInsert_keys_nodup {α : Type} (k : String) (v : α) :
    ∀ m : List (String × α), (m.map Prod.fst).Nodup →
      ((mapInsert k v m).map Prod.fst).Nodup := by
  intro m
  induction m with
  | nil => intro _; simp [mapInsert]
  | cons hd tl ih =>
    intro hnd
    obtain ⟨k', v'⟩ := hd
    simp only [List.map_cons, List.nodup_cons] at hnd
    simp only [mapInsert]
    by_cases hk : (k' == k) = true
    · rw [if_pos hk]
      have hk' : k' = k := by simpa using hk
      simp only [List.map_cons, List.nodup_cons]
      exact ⟨hk' ▸ hnd.1, hnd.2⟩
    · rw [if_neg hk]
      have hk' : k' ≠ k := by simpa using hk
      simp only [List.map_cons, List.nodup_cons]
      refine ⟨?_, ih hnd.2⟩
      intro hmem
      rcases mapInsert_keys_mem k v tl k' hmem with h | h
      · exact hk' h
      · exact hnd.1 h

theorem countP_key_zero {α : Type} (k : String) :
    ∀ m : List (String × α), k ∉ m.map Prod.fst →
      m.countP (fun kv => kv.1 == k) = 0 := by
  intro m hk
  refine List.countP_eq_zero.mpr ?_
  intro kv hkv
  simp only [beq_iff_eq]
  intro h
  exact hk (h ▸ List.mem_map_of_mem Prod.fst hkv)

theorem mapInsert_countP_key {α : Type} (k : String) (v : α) :
    ∀ m : List (String × α), (m.map Prod.fst).Nodup →
      (mapInsert k v m).countP (fun kv => kv.1 == k) = 1 := by
  intro m
  induction m with
  | nil => intro _; simp [mapInsert, List.countP_cons]
  | cons hd tl ih =>
    intro hnd
    obtain ⟨k', v'⟩ := hd
    simp only [List.map_cons, List.nodup_cons] at hnd
    simp only [mapInsert]
    by_cases hk : (k' == k) = true
    · rw [if_pos hk]
      have hk' : k' = k := by simpa using hk
      have hz : tl.countP (fun kv => kv.1 == k) = 0 :=
        countP_key_zero k tl (hk' ▸ hnd.1)
      simp [List.countP_cons, hz]
    · rw [if_neg hk]
      simp [List.countP_cons, hk, ih hnd.2]

theorem mapInsert_filter_other {α : Type} (k q : String) (v : α) (hq : q ≠ k) :
    ∀ m : List (String × α),
      (mapInsert k v m).filter (fun kv => kv.1 == q) = m.filter (fun kv => kv.1 == q) := by
  intro m
  induction m with
  | nil =>
    have : (k == q) = false := by simpa using (Ne.symm hq)
    simp [mapInsert, List.filter_cons, this]
  | cons hd tl ih =>
    obtain ⟨k', v'⟩ := hd
    simp only [mapInsert]
    by_cases hk : (k' == k) = true
    · rw [if_pos hk]
      have hk' : k' = k := by simpa using hk
      have h1 : (k == q) = false := by simpa using (Ne.symm hq)
      have h2 : (k' == q) = false := by simp [hk', h1]
      simp [List.filter_cons, h1, h2]
    · rw [if_neg hk]
      cases hq' : (k' == q) <;> simp [List.filter_cons, hq', ih]

/-- C8 (amended): Live Context entries are keyed by the exact path string
as given — the code performs no normalization. Adding an already-tracked
identical path string with `addFile` or `addDirectory` replaces that
entry rather than duplicating it, so after any sequence of adds each
exact path string appears exactly once; two different spellings that
normalize to the same path, however, form two separate entries. -/
theorem live_context_upsert_exact_key (lc : LiveContext) (p : String)
    (s : Int) (e : Option Int) (ig : Bool) (pats : List String) (hp : p ≠ "")
    (hf : (lc.files.map Prod.fst).Nodup) (hd : (lc.directories.map Prod.fst).Nodup) :
    (∃ lc₁, addFile lc p s e = .ok lc₁ ∧
      (lc₁.files.map Prod.fst).Nodup ∧
      lc₁.files.countP (fun kv => kv.1 == p) = 1 ∧
      ∀ q, q ≠ p → lc₁.files.filter (fun kv => kv.1 == q)
        = lc.files.filter (fun kv => kv.1 == q)) ∧
    (∃ lc₂, addDirectory lc p ig pats = .ok lc₂ ∧
      (lc₂.directories.map Prod.fst).Nodup ∧
      lc₂.directories.countP (fun kv => kv.1 == p) = 1 ∧
      ∀ q, q ≠ p → lc₂.directories.filter (fun kv => kv.1 == q)
        = lc.directories.filter (fun kv => kv.1 == q)) := by
  have hb : (p == "") = false := by simpa using hp
  constructor
  · refine ⟨{ lc with
        files := mapInsert p ⟨p, if s ≤ 0 then 1 else s, e⟩ lc.files }, ?_, ?_, ?_, ?_⟩
    · simp [addFile, hb]
    · exact mapInsert_keys_nodup p _ lc.files hf
    · exact mapInsert_countP_key p _ lc.files hf
    · intro q hq
      exact mapInsert_filter_other p q _ hq lc.files
  · refine ⟨{ lc with
        directories := mapInsert p ⟨p, ig, pats⟩ lc.directories }, ?_, ?_, ?_, ?_⟩
    · simp [addDirectory, hb]
    · exact mapInsert_keys_nodup p _ lc.directories hd
    · exact mapInsert_countP_key p _ lc.directories hd
    · intro q hq
      exact mapInsert_filter_other p q _ hq lc.directories

/-- Witness for `live_context_upsert_exact_key` starting from the empty
store with path `a`. -/
theorem live_context_upsert_exact_key_witness :
    (∃ lc₁, addFile emptyLiveContext "a" 1 none = .ok lc₁ ∧
      (lc₁.files.map Prod.fst).Nodup ∧
      lc₁.files.countP (fun kv => kv.1 == "a") = 1 ∧
      ∀ q, q ≠ "a" → lc₁.files.filter (fun kv => kv.1 == q)
        = emptyLiveContext.files.filter (fun kv => kv.1 == q)) ∧
    (∃ lc₂, addDirectory emptyLiveContext "a" true [] = .ok lc₂ ∧
      (lc₂.directories.map Prod.fst).Nodup ∧
      lc₂.directories.countP (fun kv => kv.1 == "a") = 1 ∧
      ∀ q, q ≠ "a" → lc₂.directories.filter (fun kv => kv.1 == q)
        = emptyLiveContext.directories.filter (fun kv => kv.1 == q)) :=
  live_context_upsert_exact_key emptyLiveContext "a" 1 none true []
    (by decide) (by decide) (by decide)

theorem readFileWithOptions_congr (fs fs' : Fs) (fi : FileInfo)
    (h : fs fi.path = fs' fi.path) :
    readFileWithOptions fs fi = readFileWithOptions fs' fi := by
  unfold readFileWithOptions
  rw [h]

theorem fileBody_congr (fs fs' : Fs) (fi : FileInfo) (h : fs fi.path = fs' fi.path) :
    fileBody fs fi = fileBody fs' fi := by
  unfold fileBody
  rw [readFileWithOptions_congr fs fs' fi h]

/-- C5: the tracked entries store path and line range only (`FileInfo` has
no content field), and `serializeFiles` is a function of nothing but those
entries and the disk contents passed at call time: two filesystem states
that agree on every tracked path serialize identically, and after an edit
the body rendered for the edited entry is computed from the new content
alone — no cached content can mask the edit between two successive calls. -/
theorem serialize_files_reads_disk_at_call_time (lc : LiveContext) (fs fs' : Fs)
    (hagree : ∀ kv ∈ lc.files, fs kv.2.path = fs' kv.2.path) :
    serializeFiles fs lc = serializeFiles fs' lc ∧
    (∀ kv ∈ lc.files, ∀ c : Option String,
      fileBody (fsUpdate fs kv.2.path c) kv.2 = fileBody (fun _ => c) kv.2) := by
  constructor
  · have hmap : lc.files.map (fun kv => [fileHeader kv.1 kv.2, fileBody fs kv.2])
        = lc.files.map (fun kv => [fileHeader kv.1 kv.2, fileBody fs' kv.2]) := by
      apply List.map_congr_left
      intro kv hkv
      rw [fileBody_congr fs fs' kv.2 (hagree kv hkv)]
    unfold serializeFiles
    rw [hmap]
  · intro kv _ c
    apply fileBody_congr
    simp [fsUpdate]

/-- Witness for `serialize_files_reads_disk_at_call_time` on a store
tracking the single path `a`. -/
theorem serialize_files_reads_disk_at_call_time_witness :
    serializeFiles (fun _ => some "old") ⟨[("a", ⟨"a", 1, none⟩)], []⟩
      = serializeFiles (fun q => if q = "a" then some "old" else none)
          ⟨[("a", ⟨"a", 1, none⟩)], []⟩ ∧
    fileBody (fsUpdate (fun _ => some "old") "a" (some "new")) ⟨"a", 1, none⟩
      = fileBody (fun _ => some "new") ⟨"a", 1, none⟩ :=
  ⟨(serialize_files_reads_disk_at_call_time ⟨[("a", ⟨"a", 1, none⟩)], []⟩
      (fun _ => some "old") (fun q => if q = "a" then some "old" else none)
      (by decide)).1,
   (serialize_files_reads_disk_at_call_time ⟨[("a", ⟨"a", 1, none⟩)], []⟩
      (fun _ => some "old") (fun q => if q = "a" then some "old" else none)
      (by decide)).2 ("a", ⟨"a", 1, none⟩) (by decide) (some "new")⟩

/-- C6: when the per-command deadline fired (and the caller did not
cancel), `executeCommand` reports the timeout inside a normal tool-result
string and returns a nil error — the timeout is non-fatal — and the
deadline is the fixed 30-second `shellTimeoutSeconds` installed by
`NewShellTool` for every command, independent of the surrounding turn.
The wall-clock firing itself and the subprocess kill are performed by
`context.WithTimeout`/`exec.CommandContext` and are abstracted into the
`deadlineExceeded` outcome flag. -/
theorem shell_timeout_nonfatal (o : CmdOutcome) (w : WaitErr)
    (hs : o.startErr = none) (hw : o.waitErr = some w)
    (hc : o.ctxCanceled = false) (hd : o.deadlineExceeded = true) :
    executeCommand o =
      (formatResult o.output (some ("command timed out after "
        ++ toString shellTimeoutSeconds ++ "s")), none) ∧
    shellTimeoutSeconds = 30 := by
  refine ⟨?_, rfl⟩
  simp [executeCommand, hs, hw, hc, hd]

/-- Witness for `shell_timeout_nonfatal` on a concrete timed-out command
outcome with partial output and a kill-induced exit error. -/
theorem shell_timeout_nonfatal_witness :
    executeCommand ⟨none, "partial", some (.exitErr (-1)), false, true⟩
      = (formatResult "partial" (some ("command timed out after "
          ++ toString shellTimeoutSeconds ++ "s")), none) ∧
    shellTimeoutSeconds = 30 :=
  shell_timeout_nonfatal ⟨none, "partial", some (.exitErr (-1)), false, true⟩
    (.exitErr (-1)) rfl rfl rfl rfl

/-- C4 counterexample: a stream that produced the partial content `Hello`
and then died with a transport error returns empty content alongside the
error — the partial assistant text is discarded, not returned to the
caller as the claim states. -/
theorem request_stream_discards_partial_content :
    (accumulateChunks [⟨"Hel", none⟩, ⟨"lo", none⟩] "" []).1 = "Hello" ∧
    requestStream "OpenAI" [⟨"Hel", none⟩, ⟨"lo", none⟩] (some (.other "connection reset"))
      = ("", [], some (.streamFailed "OpenAI" (.other "connection reset"))) ∧
    ("" : String) ≠ "Hello" := by
  decide

/-- C4 (amended): when the stream terminates with a transport/protocol
error, the error is surfaced distinguishing caller-initiated cancellation
from all other causes (distinct wrappings), but the partial content and
tool calls already produced are discarded — the caller receives empty
content and no tool calls alongside the error; only a clean end of
stream returns the accumulated content and tool calls. -/
theorem request_stream_error_surfacing (provider : String) (chunks : List StreamChunk)
    (e : StreamErr) :
    (e = .canceled →
      requestStream provider chunks (some e) = ("", [], some (.cancelled .canceled))) ∧
    (∀ m, e = .other m →
      requestStream provider chunks (some e)
        = ("", [], some (.streamFailed provider (.other m)))) ∧
    (∀ i p i', SurfacedErr.cancelled i ≠ SurfacedErr.streamFailed p i') ∧
    (requestStream provider chunks none
      = ((accumulateChunks chunks "" []).1, (accumulateChunks chunks "" []).2, none)) := by
  refine ⟨?_, ?_, ?_, rfl⟩
  · intro he; subst he; rfl
  · intro m he; subst he; rfl
  · intro i p i' h; exact SurfacedErr.noConfusion h

/-- Witness for `request_stream_error_surfacing` on a one-chunk stream,
for both the cancellation and the generic-failure branch. -/
theorem request_stream_error_surfacing_witness :
    requestStream "OpenAI" [⟨"Hi", none⟩] (some .canceled)
      = ("", [], some (.cancelled .canceled)) ∧
    requestStream "OpenAI" [⟨"Hi", none⟩] (some (.other "reset"))
      = ("", [], some (.streamFailed "OpenAI" (.other "reset"))) :=
  ⟨(request_stream_error_surfacing "OpenAI" [⟨"Hi", none⟩] .canceled).1 rfl,
   (request_stream_error_surfacing "OpenAI" [⟨"Hi", none⟩] (.other "reset")).2.1 "reset" rfl⟩

/-- C7 counterexample: a directory holding 101 entries — more than the
100-item cap — whose entries are all dotfiles produces an empty listing
with no truncation indicator at all: the entry filters run before the cap,
so "more entries than the cap" alone does not force an indicator. -/
theorem directory_over_cap_no_indicator :
    (match hiddenRoot with
      | .dir es => es.length
      | .file _ => 0) = 101 ∧
    maxItems < 101 ∧
    generateDirectoryTreeLines (some hiddenRoot) true [] = [] ∧
    generateDirectoryTree (some hiddenRoot) true [] = "" := by
  refine ⟨by decide, by decide, by decide, by decide⟩

theorem length_filter_add_length_filter_not {α : Type} (p : α → Bool) (l : List α) :
    (l.filter p).length + (l.filter (fun a => !p a)).length = l.length := by
  induction l with
  | nil => rfl
  | cons a l ih => cases hpa : p a <;> simp [List.filter_cons, hpa] <;> omega

theorem visibleEntries_length (ignoreSet : List String) (entries : List (String × FsNode)) :
    (visibleEntries ignoreSet entries).length
      = (entries.filter (fun e => !skipEntry ignoreSet e.1)).length := by
  unfold visibleEntries
  rw [List.length_append]
  exact length_filter_add_length_filter_not _ _

theorem addEntries_cap (segs : List String) (depth : Nat) :
    ∀ (entries : List (String × FsNode)) (results : List String)
      (qacc : List (List String × Nat)) (items : Nat),
      results.length ≤ maxItems → maxItems < results.length + entries.length →
      (addEntries segs depth entries results qacc items).1.length = maxItems ∧
      (addEntries segs depth entries results qacc items).2.2.2 = true := by
  intro entries
  induction entries with
  | nil =>
    intro results qacc items h1 h2
    simp only [List.length_nil, Nat.add_zero] at h2
    omega
  | cons e rest ih =>
    intro results qacc items h1 h2
    obtain ⟨name, node⟩ := e
    by_cases hcap : maxItems ≤ results.length
    · have hlen : results.length = maxItems := Nat.le_antisymm h1 hcap
      simp [addEntries, if_pos hcap, hlen]
    · simp only [addEntries, if_neg hcap]
      refine ih _ _ _ ?_ ?_
      · simp only [List.length_append, List.length_singleton]
        omega
      · simp only [List.length_append, List.length_singleton, List.length_cons] at h2 ⊢
        omega

theorem bfsLoop_done (root : Option FsNode) (ignoreSet : List String) :
    ∀ (fuel : Nat) (queue : List (List String × Nat)) (results : List String)
      (trunc : List (List String)), maxItems ≤ results.length →
      bfsLoop root ignoreSet fuel queue results trunc = (results, trunc) := by
  intro fuel queue results trunc h
  match fuel, queue with
  | 0, _ => rfl
  | fuel + 1, [] => rfl
  | fuel + 1, (segs, depth) :: rest =>
    simp only [bfsLoop]
    rw [if_pos h]

/-- C7 (amended): for a tracked directory whose root holds more
*non-ignored* entries than the 100-item cap, the traversal lists exactly
`maxItems` entries and stops, the root directory is recorded in the
truncated-directory set, and the final listing carries a trailing
truncation indicator line — never a silently incomplete list. (All
truncation indicators render as `./...` because the Go indicator loop
computes `filepath.Rel` of a path against itself.) -/
theorem directory_over_cap_truncation_marked (es : List (String × FsNode))
    (ig : Bool) (pats : List String)
    (h : maxItems < (es.filter (fun e => !skipEntry (defaultIgnores ++ pats) e.1)).length) :
    ∃ rs : List String,
      generateDirectoryTreeLines (some (.dir es)) ig pats = rs ++ ["./..."] ∧
      rs.length = maxItems ∧
      (bfsLoop (some (.dir es)) (defaultIgnores ++ pats) (maxItems + 2)
        [([], 0)] [] []).2 = [[]] := by
  have hcap := addEntries_cap [] 0 (visibleEntries (defaultIgnores ++ pats) es) [] [] 0
    (by simp [maxItems])
    (by simpa [visibleEntries_length] using h)
  obtain ⟨hlen, hbroke⟩ := hcap
  have hstep1 : bfsLoop (some (.dir es)) (defaultIgnores ++ pats) (maxItems + 2)
      [([], 0)] [] []
      = bfsLoop (some (.dir es)) (defaultIgnores ++ pats) (maxItems + 1)
          (addEntries [] 0 (visibleEntries (defaultIgnores ++ pats) es) [] [] 0).2.1
          (addEntries [] 0 (visibleEntries (defaultIgnores ++ pats) es) [] [] 0).1
          (if (addEntries [] 0 (visibleEntries (defaultIgnores ++ pats) es) [] [] 0).2.2.2
              || (addEntries [] 0 (visibleEntries (defaultIgnores ++ pats) es) [] [] 0).2.2.1
                < (visibleEntries (defaultIgnores ++ pats) es).length
           then [[]] else []) := rfl
  rw [hbroke] at hstep1
  simp only [Bool.true_or, if_pos] at hstep1
  have hfinal : bfsLoop (some (.dir es)) (defaultIgnores ++ pats) (maxItems + 2)
      [([], 0)] [] []
      = ((addEntries [] 0 (visibleEntries (defaultIgnores ++ pats) es) [] [] 0).1, [[]]) := by
    rw [hstep1]
    exact bfsLoop_done _ _ _ _ _ _ (Nat.le_of_eq hlen.symm)
  refine ⟨(addEntries [] 0 (visibleEntries (defaultIgnores ++ pats) es) [] [] 0).1, ?_, hlen, ?_⟩
  · simp only [generateDirectoryTreeLines]
    rw [hfinal]
    simp
  · rw [hfinal]

/-- Witness for `directory_over_cap_truncation_marked` on a directory of
101 visible files. -/
theorem directory_over_cap_truncation_marked_witness :
    maxItems < (((List.range 101).map (fun i => ("f" ++ Nat.repr i, FsNode.file 1))).filter
      (fun e => !skipEntry (defaultIgnores ++ []) e.1)).length ∧
    (∃ rs : List String,
      generateDirectoryTreeLines (some visibleRoot) true [] = rs ++ ["./..."] ∧
      rs.length = maxItems ∧
      (bfsLoop (some visibleRoot) (defaultIgnores ++ []) (maxItems + 2)
        [([], 0)] [] []).2 = [[]]) :=
  ⟨by decide,
   directory_over_cap_truncation_marked
     ((List.range 101).map (fun i => ("f" ++ Nat.repr i, FsNode.file 1))) true [] (by decide)⟩

/-- C2 evaluation at the failing input: one assistant turn issues four
tool calls and every dispatch fails. After the third consecutive failure
the loop stops with the hard budget error and has appended exactly one
tool-result message per *attempted* call — three of them — while the
latest assistant message still carries all four tool calls, so the fourth
(never-attempted) call is left with no matching tool-result message.
This contradicts both the claim and the code's own comment, which says
the results are appended "to avoid orphaned tool calls". -/
theorem process_loop_orphans_unattempted_call :
    processWithDirectService (fun _ => none) (fun _ => some "{}") (fun _ => .error "boom")
        [("", [shellCall "id1", shellCall "id2", shellCall "id3", shellCall "id4"])] [] "run"
      = ([userMessage "run",
          agentMessageWithToolCalls ""
            [shellCall "id1", shellCall "id2", shellCall "id3", shellCall "id4"],
          toolResultMessage ⟨"id1", "shell", "Tool execution failed: boom", true⟩,
          toolResultMessage ⟨"id2", "shell", "Tool execution failed: boom", true⟩,
          toolResultMessage ⟨"id3", "shell", "Tool execution failed: boom", true⟩],
         .failedBudget 3) ∧
    ((processWithDirectService (fun _ => none) (fun _ => some "{}") (fun _ => .error "boom")
        [("", [shellCall "id1", shellCall "id2", shellCall "id3", shellCall "id4"])] []
        "run").1.filter (fun m => m.role == "tool")).length = 3 ∧
    (processWithDirectService (fun _ => none) (fun _ => some "{}") (fun _ => .error "boom")
        [("", [shellCall "id1", shellCall "id2", shellCall "id3", shellCall "id4"])] []
        "run").1.any (fun m => m.role == "tool" && m.toolUseID == "id4") = false := by
  refine ⟨by decide, by decide, by decide⟩

end Agent
